import Mathlib

/-!
Shallow embedding of `StackedPg._calcStacked` (src/stackedpg.py) and the
surrounding data flow, together with theorems checking the specification's
claims about it.

Modelling conventions:

* A numpy float is modelled by `V`: `V.fin q` is a finite float of exact
  value `q : ℚ` (the spec reasons at the level of exact real arithmetic, so
  rounding is not modelled), and `V.bad` is any non-finite float (NaN or
  ±Inf).  IEEE arithmetic on finite operands stays finite and agrees with
  `ℚ`; any +, -, * with a non-finite operand is non-finite; a division whose
  divisor is (exactly) zero is non-finite (±Inf or NaN, depending on the
  numerator, all collapsed into `V.bad`).  A division by a non-finite
  divisor is also collapsed to `V.bad`; in IEEE a finite value divided by
  ±Inf would be 0.0, but in this program a non-finite divisor (a trapz
  integral) only ever arises when the dividend column is itself entirely
  non-finite, so the collapse is faithful on every state the theorems reach.
* The outcome of `np.genfromtxt` on one file is an input of the model: either
  an exception message, or the parsed numeric matrix (genfromtxt inserts NaN,
  i.e. `V.bad`, for unparseable fields instead of raising).
* Python exceptions raised inside the `try` body are modelled by `PyErr`;
  `pyStr e` is `str(e)` and `errName e` is the exception's class name.
-/

instance {ε α : Type} [DecidableEq ε] [DecidableEq α] : DecidableEq (Except ε α)
  | Except.error e, Except.error e' =>
      if h : e = e' then Decidable.isTrue (by rw [h])
      else Decidable.isFalse (fun hc => h (by cases hc; rfl))
  | Except.error _, Except.ok _ => Decidable.isFalse (fun hc => Except.noConfusion hc)
  | Except.ok _, Except.error _ => Decidable.isFalse (fun hc => Except.noConfusion hc)
  | Except.ok a, Except.ok b =>
      if h : a = b then Decidable.isTrue (by rw [h])
      else Decidable.isFalse (fun hc => h (by cases hc; rfl))

namespace StackedPG

/-- A numpy float: a finite value with exact rational magnitude, or a
non-finite value (NaN or ±Inf). -/
inductive V where
  | fin (q : ℚ)
  | bad
deriving DecidableEq, Repr

/-- Float addition: finite on finite operands, non-finite otherwise. -/
def vadd : V → V → V
  | V.fin a, V.fin b => V.fin (a + b)
  | _, _ => V.bad

/-- Float subtraction. -/
def vsub : V → V → V
  | V.fin a, V.fin b => V.fin (a - b)
  | _, _ => V.bad

/-- Float multiplication. -/
def vmul : V → V → V
  | V.fin a, V.fin b => V.fin (a * b)
  | _, _ => V.bad

/-- Float division: division by zero yields a non-finite value (numpy emits a
warning, not an exception), and any non-finite operand yields a non-finite
result (see the module comment for the one collapsed case). -/
def vdiv : V → V → V
  | V.fin a, V.fin b => if b = 0 then V.bad else V.fin (a / b)
  | _, _ => V.bad

/-- `true` iff the value is finite. -/
def isFin : V → Bool
  | V.fin _ => true
  | V.bad => false

/-- All entries of a list are finite floats. -/
def allFin (l : List V) : Bool :=
  l.all isFin

/-- `np.trapz(y=y, x=x)`: the trapezoidal-rule integral
`Σ ((y i + y (i+1)) * (x (i+1) - x i)) / 2`.  numpy computes
`(d * (y[1:] + y[:-1]) / 2.0).sum(...)`; with fewer than two sample points
the sum is empty and the result is `0.0`. -/
def trapz : List V → List V → V
  | y0 :: y1 :: ys, x0 :: x1 :: xs =>
      vadd (vdiv (vmul (vadd y0 y1) (vsub x1 x0)) (V.fin 2))
        (trapz (y1 :: ys) (x1 :: xs))
  | _, _ => V.fin 0

/-- Column `j` of a parsed matrix, `m[:, j]`.  (Used only under the dimension
check below, so the default is never selected.) -/
def col (m : List (List V)) (j : Nat) : List V :=
  m.map (fun r => r.getD j V.bad)

/-- Line 86 of the source: the power column divided by the trapezoidal
integral of power over frequency,
`new_pg[:, 1] / np.trapz(y=new_pg[:, 1], x=new_pg[:, 0])`. -/
def normP (m : List (List V)) : List V :=
  (col m 1).map (fun y => vdiv y (trapz (col m 1) (col m 0)))

/-- A Python exception raised inside the `try` body of `_calcStacked`, or at
final normalization. -/
inductive PyErr where
  /-- `np.genfromtxt` raised; carries `str(e)`. -/
  | parseError (msg : String)
  /-- `new_pg[:, k]` on an array that is not 2-D (genfromtxt returns a 1-D
  array for files with a single data row or a single column, and an empty
  array for files with no data rows). -/
  | indexError
  /-- elementwise `*` or `+` on arrays whose lengths differ (both accumulator
  and new column have length at least 2 here, so numpy broadcasting cannot
  apply and the operation raises). -/
  | valueError
  /-- `np.trapz(y=None, x=None)` at line 97 when no file loaded successfully:
  numpy fails on the 0-d object array with a builtin exception. -/
  | noneTrapzError
deriving DecidableEq, Repr

/-- `str(e)` for a modelled exception, as appended to `error_files`. -/
def pyStr : PyErr → String
  | PyErr.parseError msg => msg
  | PyErr.indexError => "too many indices for array"
  | PyErr.valueError => "operands could not be broadcast together"
  | PyErr.noneTrapzError => "list assignment index out of range"

/-- The Python class name of a modelled exception.  The source defines no
exception classes of its own; every failure is a builtin (or numpy builtin)
exception. -/
def errName : PyErr → String
  | PyErr.parseError _ => "ValueError"
  | PyErr.indexError => "IndexError"
  | PyErr.valueError => "ValueError"
  | PyErr.noneTrapzError => "IndexError"

/-- One discovered file: its name and the outcome of `np.genfromtxt` on it. -/
structure RawFile where
  name : String
  parsed : Except String (List (List V))

/-- A file that parses cleanly to the matrix `m`. -/
def okFile (m : List (List V)) : RawFile :=
  { name := "pg", parsed := Except.ok m }

/-- Lines 84-86: parse one file and normalize its power column in place.
Returns the frequency column and the normalized power column, or the
exception raised.  The dimension test models the `new_pg[:, 1]` /
`new_pg[:, 0]` accesses, which raise `IndexError` unless genfromtxt produced
a 2-D array (at least two rows, at least two columns). -/
def loadNorm (f : RawFile) : Except PyErr (List V × List V) :=
  match f.parsed with
  | Except.error msg => Except.error (PyErr.parseError msg)
  | Except.ok m =>
      if 2 ≤ m.length ∧ ∀ r ∈ m, 2 ≤ r.length then
        Except.ok (col m 0, normP m)
      else
        Except.error PyErr.indexError

/-- The mutable state of the loop in `_calcStacked`: the `error_files` list
and the accumulators (`None` before the first successful load, otherwise
`(frecs, stacked_and, stacked_or)`). -/
structure CalcState where
  error_files : List (String × String)
  acc : Option (List V × List V × List V)
deriving DecidableEq, Repr

/-- The state on entry to the loop: `error_files = []`, accumulators `None`. -/
def state0 : CalcState :=
  { error_files := [], acc := none }

/-- Lines 82-95: one iteration of the loop body.  The two elementwise updates
of line 92 and line 93 are modelled separately: if line 92 succeeds but
line 93 raises, `stacked_and` has already been rebound while `stacked_or` has
not (the `except` clause only logs and continues). -/
def step (st : CalcState) (f : RawFile) : CalcState :=
  match loadNorm f with
  | Except.error e =>
      { st with error_files := st.error_files ++ [(f.name, pyStr e)] }
  | Except.ok (fr, pw) =>
      match st.acc with
      | none => { st with acc := some (fr, pw, pw) }
      | some (frecs, sand, sor) =>
          if pw.length = sand.length then
            let sand' := List.zipWith vmul sand pw
            if pw.length = sor.length then
              { st with acc := some (frecs, sand', List.zipWith vadd sor pw) }
            else
              { error_files := st.error_files ++ [(f.name, pyStr PyErr.valueError)],
                acc := some (frecs, sand', sor) }
          else
            { st with error_files := st.error_files ++ [(f.name, pyStr PyErr.valueError)] }

/-- Lines 96-100: divide each accumulator by its own trapezoidal integral
over `frecs` and assemble the three-column table
`np.vstack((frecs, stacked_and, stacked_or)).T`.  When no file loaded
successfully the accumulators are still `None` and `np.trapz` raises, so
`__init__` propagates an exception and no table is produced. -/
def finalize (acc : Option (List V × List V × List V)) :
    Except PyErr (List (V × V × V)) :=
  match acc with
  | none => Except.error PyErr.noneTrapzError
  | some (frecs, sand, sor) =>
      let sandN := sand.map (fun y => vdiv y (trapz sand frecs))
      let sorN := sor.map (fun y => vdiv y (trapz sor frecs))
      Except.ok (List.zipWith (fun x p => (x, p)) frecs (List.zip sandN sorN))

/-- The whole of `_calcStacked`, as a function of the discovered file list
(`os.listdir` order): the final `stacked` table (or the uncaught exception)
together with the final `error_files` list. -/
def calcStacked (files : List RawFile) :
    Except PyErr (List (V × V × V)) × List (String × String) :=
  let st := files.foldl step state0
  (finalize st.acc, st.error_files)

/-! Spec-side closed forms, following the specification's words: the AND
value at a grid index is the product over all files of that file's
normalized power there, the OR value is the sum. -/

/-- Product over all files of the normalized power at index `i`. -/
def andNum (mats : List (List (List V))) (i : Nat) : V :=
  (mats.map (fun m => (normP m).getD i (V.fin 1))).foldr vmul (V.fin 1)

/-- Sum over all files of the normalized power at index `i`. -/
def orNum (mats : List (List (List V))) (i : Nat) : V :=
  (mats.map (fun m => (normP m).getD i (V.fin 0))).foldr vadd (V.fin 0)

/-- The unnormalized AND curve on a grid of `n` points. -/
def andCurve (mats : List (List (List V))) (n : Nat) : List V :=
  (List.range n).map (fun i => andNum mats i)

/-- The unnormalized OR curve on a grid of `n` points. -/
def orCurve (mats : List (List (List V))) (n : Nat) : List V :=
  (List.range n).map (fun i => orNum mats i)

/-- The length invariant of the accumulators (claim C9). -/
def accLenInv : Option (List V × List V × List V) → Prop
  | none => True
  | some (fr, sand, sor) => sand.length = fr.length ∧ sor.length = fr.length

/-! ### Algebraic facts about the float model -/

theorem vmul_comm (a b : V) : vmul a b = vmul b a := by
  cases a <;> cases b <;> simp [vmul] <;> ring

theorem vmul_assoc (a b c : V) : vmul (vmul a b) c = vmul a (vmul b c) := by
  cases a <;> cases b <;> cases c <;> simp [vmul] <;> ring

theorem vmul_one_right (a : V) : vmul a (V.fin 1) = a := by
  cases a <;> simp [vmul]

theorem vmul_bad_left (a : V) : vmul V.bad a = V.bad := by
  cases a <;> simp [vmul]

theorem vmul_bad_right (a : V) : vmul a V.bad = V.bad := by
  cases a <;> simp [vmul]

theorem vadd_comm (a b : V) : vadd a b = vadd b a := by
  cases a <;> cases b <;> simp [vadd] <;> ring

theorem vadd_assoc (a b c : V) : vadd (vadd a b) c = vadd a (vadd b c) := by
  cases a <;> cases b <;> cases c <;> simp [vadd] <;> ring

theorem vadd_zero_right (a : V) : vadd a (V.fin 0) = a := by
  cases a <;> simp [vadd]

theorem vadd_bad_left (a : V) : vadd V.bad a = V.bad := by
  cases a <;> simp [vadd]

theorem vadd_bad_right (a : V) : vadd a V.bad = V.bad := by
  cases a <;> simp [vadd]

theorem vdiv_zero_right (a : V) : vdiv a (V.fin 0) = V.bad := by
  cases a <;> simp [vdiv]

theorem vdiv_bad_right (a : V) : vdiv a V.bad = V.bad := by
  cases a <;> simp [vdiv]

theorem vdiv_bad_left (a : V) : vdiv V.bad a = V.bad := by
  cases a <;> simp [vdiv]

theorem vadd_eq_fin {a b : V} {c : ℚ} (h : vadd a b = V.fin c) :
    (∃ p, a = V.fin p) ∧ (∃ q, b = V.fin q) := by
  cases a <;> cases b <;> simp [vadd] at h ⊢

theorem vmul_eq_fin {a b : V} {c : ℚ} (h : vmul a b = V.fin c) :
    (∃ p, a = V.fin p) ∧ (∃ q, b = V.fin q) := by
  cases a <;> cases b <;> simp [vmul] at h ⊢

theorem vsub_eq_fin {a b : V} {c : ℚ} (h : vsub a b = V.fin c) :
    (∃ p, a = V.fin p) ∧ (∃ q, b = V.fin q) := by
  cases a <;> cases b <;> simp [vsub] at h ⊢

theorem vdiv_eq_fin {a b : V} {c : ℚ} (h : vdiv a b = V.fin c) :
    (∃ p, a = V.fin p) ∧ (∃ q, b = V.fin q ∧ q ≠ 0) := by
  cases a <;> cases b <;> simp [vdiv] at h ⊢
  case fin.fin p q =>
    by_cases hq : q = 0
    · simp [hq] at h
    · exact hq

theorem vdiv_fin_ne {a b : ℚ} (hb : b ≠ 0) :
    vdiv (V.fin a) (V.fin b) = V.fin (a / b) := by
  simp [vdiv, hb]

theorem isFin_eq_true {v : V} (h : isFin v = true) : ∃ q, v = V.fin q := by
  cases v <;> simp [isFin] at h ⊢

theorem allFin_cons {v : V} {l : List V} :
    allFin (v :: l) = true ↔ isFin v = true ∧ allFin l = true := by
  simp [allFin]

/-! ### Facts about the trapezoidal integral -/

theorem trapz_nil_left (x : List V) : trapz [] x = V.fin 0 := rfl

theorem trapz_single_left (y0 : V) (x : List V) : trapz [y0] x = V.fin 0 := rfl

theorem trapz_nil_right (y : List V) : trapz y [] = V.fin 0 := by
  cases y with
  | nil => rfl
  | cons y0 ytl => cases ytl <;> rfl

theorem trapz_single_right (y : List V) (x0 : V) : trapz y [x0] = V.fin 0 := by
  cases y with
  | nil => rfl
  | cons y0 ytl => cases ytl <;> rfl

theorem trapz_cons_fin (a b p q : ℚ) (ys xs : List V) :
    trapz (V.fin a :: V.fin b :: ys) (V.fin p :: V.fin q :: xs) =
      vadd (V.fin ((a + b) * (q - p) / 2)) (trapz (V.fin b :: ys) (V.fin q :: xs)) := by
  show vadd (vdiv (vmul (vadd _ _) (vsub _ _)) (V.fin 2)) _ = _
  norm_num [vadd, vsub, vmul, vdiv]

theorem trapz_bad_head (y1 x0 x1 : V) (ys xs : List V) :
    trapz (V.bad :: y1 :: ys) (x0 :: x1 :: xs) = V.bad := by
  show vadd (vdiv (vmul (vadd _ _) (vsub _ _)) (V.fin 2)) _ = _
  rw [vadd_bad_left, vmul_bad_left, vdiv_bad_left, vadd_bad_left]

/-- On all-finite inputs the trapezoidal integral is finite. -/
theorem trapz_allFin {y : List V} (x : List V) (hy : allFin y = true)
    (hx : allFin x = true) : ∃ s, trapz y x = V.fin s := by
  induction y generalizing x with
  | nil => exact ⟨0, rfl⟩
  | cons y0 ytl ih =>
    cases ytl with
    | nil => exact ⟨0, rfl⟩
    | cons y1 ys =>
      cases x with
      | nil => exact ⟨0, trapz_nil_right _⟩
      | cons x0 xtl =>
        cases xtl with
        | nil => exact ⟨0, trapz_single_right _ _⟩
        | cons x1 xs =>
          rw [allFin_cons] at hy hx
          obtain ⟨a, ha⟩ := isFin_eq_true hy.1
          obtain ⟨p, hp⟩ := isFin_eq_true hx.1
          have hy1 := hy.2
          have hx1 := hx.2
          rw [allFin_cons] at hy1 hx1
          obtain ⟨b, hb⟩ := isFin_eq_true hy1.1
          obtain ⟨q, hq⟩ := isFin_eq_true hx1.1
          obtain ⟨s, hs⟩ := ih (x1 :: xs) (allFin_cons.mpr hy1) (allFin_cons.mpr hx1)
          subst ha hp hb hq
          exact ⟨_, by rw [trapz_cons_fin, hs]; rfl⟩

/-- A finite trapezoidal integral over lists of equal length at least 2 forces
every sample to be finite. -/
theorem trapz_fin_forces_allFin {y x : List V} {c : ℚ} (hlen : y.length = x.length)
    (h2 : 2 ≤ y.length) (h : trapz y x = V.fin c) :
    allFin y = true ∧ allFin x = true := by
  induction y generalizing x c with
  | nil => simp at h2
  | cons y0 ytl ih =>
    cases ytl with
    | nil => simp at h2
    | cons y1 ys =>
      cases x with
      | nil => simp at hlen
      | cons x0 xtl =>
        cases xtl with
        | nil => simp at hlen
        | cons x1 xs =>
          have h' : vadd (vdiv (vmul (vadd y0 y1) (vsub x1 x0)) (V.fin 2))
              (trapz (y1 :: ys) (x1 :: xs)) = V.fin c := h
          obtain ⟨⟨t, ht⟩, ⟨s, hs⟩⟩ := vadd_eq_fin h'
          obtain ⟨⟨u, hu⟩, -⟩ := vdiv_eq_fin ht
          obtain ⟨⟨v0, hv0⟩, ⟨v1, hv1⟩⟩ := vmul_eq_fin hu
          obtain ⟨⟨w0, hw0⟩, ⟨w1, hw1⟩⟩ := vadd_eq_fin hv0
          obtain ⟨⟨z1, hz1⟩, ⟨z0, hz0⟩⟩ := vsub_eq_fin hv1
          subst hw0 hw1 hz1 hz0
          cases ys with
          | nil =>
            cases xs with
            | nil =>
              constructor <;> simp [allFin, isFin]
            | cons _ _ => simp at hlen
          | cons y2 ys' =>
            cases xs with
            | nil => simp at hlen
            | cons x2 xs' =>
              have hlen' : (V.fin w1 :: y2 :: ys').length = (V.fin z1 :: x2 :: xs').length := by
                simpa using hlen
              obtain ⟨hy', hx'⟩ := ih hlen' (by simp) hs
              refine ⟨?_, ?_⟩
              · rw [allFin_cons]
                exact ⟨by simp [isFin], hy'⟩
              · rw [allFin_cons]
                exact ⟨by simp [isFin], hx'⟩

/-- Linearity of the trapezoidal integral under division of the samples by a
nonzero finite constant. -/
theorem trapz_map_vdiv {y : List V} (x : List V) {c : ℚ} (hy : allFin y = true)
    (hx : allFin x = true) (hc : c ≠ 0) :
    trapz (y.map (fun v => vdiv v (V.fin c))) x = vdiv (trapz y x) (V.fin c) := by
  induction y generalizing x with
  | nil => simp [trapz_nil_left, vdiv_fin_ne hc]
  | cons y0 ytl ih =>
    cases ytl with
    | nil => simp [trapz_single_left, vdiv_fin_ne hc]
    | cons y1 ys =>
      cases x with
      | nil => simp [trapz_nil_right, vdiv_fin_ne hc]
      | cons x0 xtl =>
        cases xtl with
        | nil => simp [trapz_single_right, vdiv_fin_ne hc]
        | cons x1 xs =>
          rw [allFin_cons] at hy hx
          obtain ⟨a, ha⟩ := isFin_eq_true hy.1
          obtain ⟨p, hp⟩ := isFin_eq_true hx.1
          have hy1 := hy.2
          have hx1 := hx.2
          rw [allFin_cons] at hy1 hx1
          obtain ⟨b, hb⟩ := isFin_eq_true hy1.1
          obtain ⟨q, hq⟩ := isFin_eq_true hx1.1
          subst ha hp hb hq
          have hy1' : allFin (V.fin b :: ys) = true := allFin_cons.mpr hy1
          have hx1' : allFin (V.fin q :: xs) = true := allFin_cons.mpr hx1
          obtain ⟨s, hs⟩ := trapz_allFin (V.fin q :: xs) hy1' hx1'
          have htail := ih (V.fin q :: xs) hy1' hx1'
          simp only [List.map_cons, vdiv_fin_ne hc] at htail ⊢
          rw [trapz_cons_fin (a / c) (b / c) p q (ys.map (fun v => vdiv v (V.fin c))) xs,
            trapz_cons_fin a b p q ys xs, htail, hs, vdiv_fin_ne hc]
          simp only [vadd]
          rw [vdiv_fin_ne hc]
          exact congrArg V.fin (by field_simp; ring)

/-! ### Structural facts about the loop -/

theorem col_length (m : List (List V)) (j : Nat) : (col m j).length = m.length := by
  simp [col]

theorem normP_length (m : List (List V)) : (normP m).length = m.length := by
  simp [normP, col]

theorem loadNorm_okFile {m : List (List V)}
    (hdim : 2 ≤ m.length ∧ ∀ r ∈ m, 2 ≤ r.length) :
    loadNorm (okFile m) = Except.ok (col m 0, normP m) := by
  simp only [loadNorm, okFile]
  rw [if_pos hdim]

theorem loadNorm_error_parsed {f : RawFile} {msg : String}
    (h : f.parsed = Except.error msg) :
    loadNorm f = Except.error (PyErr.parseError msg) := by
  simp [loadNorm, h]

theorem loadNorm_ok_shape {f : RawFile} {fr pw : List V}
    (h : loadNorm f = Except.ok (fr, pw)) :
    ∃ m, f.parsed = Except.ok m ∧ (2 ≤ m.length ∧ ∀ r ∈ m, 2 ≤ r.length) ∧
      fr = col m 0 ∧ pw = normP m := by
  cases hp : f.parsed with
  | error msg => rw [loadNorm_error_parsed hp] at h; exact absurd h (by simp)
  | ok m =>
    simp only [loadNorm, hp] at h
    by_cases hdim : 2 ≤ m.length ∧ ∀ r ∈ m, 2 ≤ r.length
    · rw [if_pos hdim] at h
      injection h with h'
      obtain ⟨h1, h2⟩ := Prod.mk.injEq .. ▸ h'
      exact ⟨m, rfl, hdim, h1.symm, h2.symm⟩
    · rw [if_neg hdim] at h
      exact absurd h (by simp)

/-- The loop body appends its errors to whatever `error_files` already holds
and computes the new accumulators from the old ones alone. -/
theorem step_split (st : CalcState) (f : RawFile) :
    step st f =
      { error_files :=
          st.error_files ++ (step { error_files := [], acc := st.acc } f).error_files,
        acc := (step { error_files := [], acc := st.acc } f).acc } := by
  cases h : loadNorm f with
  | error e => simp [step, h]
  | ok v =>
    obtain ⟨fr, pw⟩ := v
    cases hacc : st.acc with
    | none => simp [step, h, hacc]
    | some a =>
      obtain ⟨frecs, sand, sor⟩ := a
      by_cases h1 : pw.length = sand.length
      · by_cases h2 : pw.length = sor.length
        · have h12 : sand.length = sor.length := by rw [← h1]; exact h2
          simp [step, h, hacc, h1, h2, h12]
        · have h12 : ¬sand.length = sor.length := fun hh => h2 (by rw [h1, hh])
          simp [step, h, hacc, h1, h2, h12]
      · simp [step, h, hacc, h1]

theorem foldl_step_acc (files : List RawFile) (st : CalcState) :
    (files.foldl step st).acc =
      (files.foldl step { error_files := [], acc := st.acc }).acc := by
  induction files generalizing st with
  | nil => rfl
  | cons f fs ih =>
    rw [List.foldl_cons, List.foldl_cons, ih (step st f),
      ih (step { error_files := [], acc := st.acc } f)]
    rw [step_split st f]

theorem foldl_step_errs (files : List RawFile) (st : CalcState) :
    (files.foldl step st).error_files =
      st.error_files ++
        (files.foldl step { error_files := [], acc := st.acc }).error_files := by
  induction files generalizing st with
  | nil => simp
  | cons f fs ih =>
    rw [List.foldl_cons, List.foldl_cons, ih (step st f),
      ih (step { error_files := [], acc := st.acc } f)]
    rw [step_split st f]
    simp

/-- The full accumulator invariant maintained by the loop: the three
sequences have a common length, which is at least 2. -/
def accInvFull : Option (List V × List V × List V) → Prop
  | none => True
  | some (fr, sand, sor) =>
      sand.length = fr.length ∧ sor.length = fr.length ∧ 2 ≤ fr.length

theorem step_preserves_inv {st : CalcState} (f : RawFile)
    (h : accInvFull st.acc) : accInvFull (step st f).acc := by
  cases hl : loadNorm f with
  | error e => simpa [step, hl] using h
  | ok v =>
    obtain ⟨fr, pw⟩ := v
    obtain ⟨m, -, hdim, hfr, hpw⟩ := loadNorm_ok_shape hl
    cases hacc : st.acc with
    | none =>
      simp only [step, hl, hacc, accInvFull]
      subst hfr hpw
      refine ⟨by rw [normP_length, col_length], by rw [normP_length, col_length], ?_⟩
      rw [col_length]; exact hdim.1
    | some a =>
      obtain ⟨frecs, sand, sor⟩ := a
      rw [hacc] at h
      obtain ⟨hsa, hso, hfr2⟩ := h
      by_cases h1 : pw.length = sand.length
      · have h2 : pw.length = sor.length := by rw [h1, hsa, hso]
        have h12 : sand.length = sor.length := by rw [← h1]; exact h2
        have hstep : step st f = { st with acc := some (frecs, List.zipWith vmul sand pw, List.zipWith vadd sor pw) } := by
          simp [step, hl, hacc, h1, h2, h12]
        rw [hstep]
        refine ⟨?_, ?_, hfr2⟩
        · rw [List.length_zipWith, h1, min_self, hsa]
        · rw [List.length_zipWith, h2, min_self, hso]
      · simpa [step, hl, hacc, h1, accInvFull] using ⟨hsa, hso, hfr2⟩

theorem foldl_preserves_inv (files : List RawFile) {st : CalcState}
    (h : accInvFull st.acc) : accInvFull ((files.foldl step st).acc) := by
  induction files generalizing st with
  | nil => exact h
  | cons f fs ih => exact ih (step_preserves_inv f h)

/-- Every reachable accumulator state satisfies the invariant. -/
theorem run_inv (files : List RawFile) :
    accInvFull ((files.foldl step state0).acc) :=
  foldl_preserves_inv files trivial

/-! ### Index-wise access lemmas -/

theorem getD_zipWith {α β γ : Type} (f : α → β → γ) (a : List α) (b : List β)
    (i : Nat) (da : α) (db : β) (dc : γ) (hia : i < a.length) (hib : i < b.length) :
    (List.zipWith f a b).getD i dc = f (a.getD i da) (b.getD i db) := by
  have hz : i < (List.zipWith f a b).length := by
    rw [List.length_zipWith]; omega
  rw [List.getD_eq_getElem _ _ hz, List.getElem_zipWith,
    List.getD_eq_getElem _ _ hia, List.getD_eq_getElem _ _ hib]

theorem getD_map {α β : Type} (f : α → β) (l : List α) (i : Nat)
    (hi : i < l.length) (d : β) (d' : α) :
    (l.map f).getD i d = f (l.getD i d') := by
  have hm : i < (l.map f).length := by simpa using hi
  rw [List.getD_eq_getElem _ _ hm, List.getD_eq_getElem _ _ hi, List.getElem_map]

theorem foldl_zipWith_length {n : Nat} (f : V → V → V) (ls : List (List V))
    (a : List V) (ha : a.length = n) (hls : ∀ p ∈ ls, p.length = n) :
    (ls.foldl (fun acc p => List.zipWith f acc p) a).length = n := by
  induction ls generalizing a with
  | nil => exact ha
  | cons p ps ih =>
    rw [List.foldl_cons]
    refine ih _ ?_ (fun q hq => hls q (by simp [hq]))
    rw [List.length_zipWith, ha, hls p (by simp), min_self]

theorem getD_foldl_zipWith {n : Nat} (f : V → V → V) (ls : List (List V))
    (a : List V) (ha : a.length = n) (hls : ∀ p ∈ ls, p.length = n)
    (i : Nat) (hi : i < n) (d : V) :
    (ls.foldl (fun acc p => List.zipWith f acc p) a).getD i d =
      ls.foldl (fun v p => f v (p.getD i d)) (a.getD i d) := by
  induction ls generalizing a with
  | nil => rfl
  | cons p ps ih =>
    rw [List.foldl_cons, List.foldl_cons,
      ← getD_zipWith f a p i d d d (by omega) (by rw [hls p (by simp)]; omega)]
    refine ih _ ?_ (fun q hq => hls q (by simp [hq]))
    rw [List.length_zipWith, ha, hls p (by simp), min_self]

theorem foldl_vmul_eq_foldr (x : V) (l : List V) :
    l.foldl vmul x = vmul x (l.foldr vmul (V.fin 1)) := by
  induction l generalizing x with
  | nil => rw [List.foldl_nil, List.foldr_nil, vmul_one_right]
  | cons y ys ih => rw [List.foldl_cons, List.foldr_cons, ih, vmul_assoc]

theorem foldl_vadd_eq_foldr (x : V) (l : List V) :
    l.foldl vadd x = vadd x (l.foldr vadd (V.fin 0)) := by
  induction l generalizing x with
  | nil => rw [List.foldl_nil, List.foldr_nil, vadd_zero_right]
  | cons y ys ih => rw [List.foldl_cons, List.foldr_cons, ih, vadd_assoc]

/-! ### The run on a list of files that all load successfully -/

theorem step_okFile_some (errs : List (String × String)) {grid a o : List V}
    {m : List (List V)} (hdim : 2 ≤ m.length ∧ ∀ r ∈ m, 2 ≤ r.length)
    (hcol : col m 0 = grid) (ha : a.length = grid.length)
    (ho : o.length = grid.length) :
    step { error_files := errs, acc := some (grid, a, o) } (okFile m) =
      { error_files := errs,
        acc := some (grid, List.zipWith vmul a (normP m), List.zipWith vadd o (normP m)) } := by
  have hl := loadNorm_okFile hdim
  have hn : (normP m).length = grid.length := by
    rw [normP_length, ← hcol, col_length]
  have h1 : (normP m).length = a.length := by rw [hn, ha]
  have h2 : (normP m).length = o.length := by rw [hn, ho]
  have h3 : a.length = o.length := by rw [ha, ho]
  simp [step, hl, h1, h2, h3]

theorem foldl_step_allOk {grid : List V} (mats : List (List (List V)))
    (hgood : ∀ m ∈ mats, (2 ≤ m.length ∧ ∀ r ∈ m, 2 ≤ r.length) ∧ col m 0 = grid)
    (errs : List (String × String)) (a o : List V)
    (ha : a.length = grid.length) (ho : o.length = grid.length) :
    (mats.map okFile).foldl step { error_files := errs, acc := some (grid, a, o) } =
      { error_files := errs,
        acc := some (grid,
          mats.foldl (fun acc m => List.zipWith vmul acc (normP m)) a,
          mats.foldl (fun acc m => List.zipWith vadd acc (normP m)) o) } := by
  induction mats generalizing a o with
  | nil => rfl
  | cons m rest ih =>
    have hm := hgood m (by simp)
    have hn : (normP m).length = grid.length := by
      rw [normP_length, ← hm.2, col_length]
    rw [List.map_cons, List.foldl_cons, step_okFile_some errs hm.1 hm.2 ha ho,
      ih (fun m' hm' => hgood m' (by simp [hm']))
        (List.zipWith vmul a (normP m)) (List.zipWith vadd o (normP m))
        (by rw [List.length_zipWith, ha, hn, min_self])
        (by rw [List.length_zipWith, ho, hn, min_self]),
      List.foldl_cons, List.foldl_cons]

/-- After folding a nonempty list of files that all parse to well-shaped
matrices over a common grid, the error log is empty and the accumulators are
the running product and sum of the per-file normalized power columns. -/
theorem run_allOk {grid : List V} (m0 : List (List V)) (rest : List (List (List V)))
    (hgood : ∀ m ∈ m0 :: rest, (2 ≤ m.length ∧ ∀ r ∈ m, 2 ≤ r.length) ∧ col m 0 = grid) :
    ((m0 :: rest).map okFile).foldl step state0 =
      { error_files := [],
        acc := some (grid,
          rest.foldl (fun acc m => List.zipWith vmul acc (normP m)) (normP m0),
          rest.foldl (fun acc m => List.zipWith vadd acc (normP m)) (normP m0)) } := by
  have hm0 := hgood m0 (by simp)
  have hstep : step state0 (okFile m0) =
      { error_files := [], acc := some (grid, normP m0, normP m0) } := by
    have hl := loadNorm_okFile hm0.1
    simp [step, hl, state0, hm0.2]
  have hn : (normP m0).length = grid.length := by
    rw [normP_length, ← hm0.2, col_length]
  rw [List.map_cons, List.foldl_cons, hstep,
    foldl_step_allOk rest (fun m' hm' => hgood m' (by simp [hm'])) [] _ _ hn hn]

/-- Index-wise value of the AND accumulator after an all-valid run. -/
theorem sandAcc_getD {grid : List V} (m0 : List (List V)) (rest : List (List (List V)))
    (hgood : ∀ m ∈ m0 :: rest, (2 ≤ m.length ∧ ∀ r ∈ m, 2 ≤ r.length) ∧ col m 0 = grid)
    (i : Nat) (hi : i < grid.length) :
    (rest.foldl (fun acc m => List.zipWith vmul acc (normP m)) (normP m0)).getD i (V.fin 1) =
      andNum (m0 :: rest) i := by
  have hn : ∀ m ∈ m0 :: rest, (normP m).length = grid.length := by
    intro m hm
    rw [normP_length, ← (hgood m hm).2, col_length]
  rw [show rest.foldl (fun acc m => List.zipWith vmul acc (normP m)) (normP m0) =
        (rest.map normP).foldl (fun acc p => List.zipWith vmul acc p) (normP m0) from
      (List.foldl_map normP _ rest _).symm,
    getD_foldl_zipWith vmul (rest.map normP) (normP m0) (hn m0 (by simp))
      (by intro p hp
          obtain ⟨m, hm, rfl⟩ := List.mem_map.mp hp
          exact hn m (by simp [hm])) i hi (V.fin 1),
    List.foldl_map, ← List.foldl_map (fun m => (normP m).getD i (V.fin 1)) vmul rest,
    foldl_vmul_eq_foldr]
  rfl

/-- Index-wise value of the OR accumulator after an all-valid run. -/
theorem sorAcc_getD {grid : List V} (m0 : List (List V)) (rest : List (List (List V)))
    (hgood : ∀ m ∈ m0 :: rest, (2 ≤ m.length ∧ ∀ r ∈ m, 2 ≤ r.length) ∧ col m 0 = grid)
    (i : Nat) (hi : i < grid.length) :
    (rest.foldl (fun acc m => List.zipWith vadd acc (normP m)) (normP m0)).getD i (V.fin 0) =
      orNum (m0 :: rest) i := by
  have hn : ∀ m ∈ m0 :: rest, (normP m).length = grid.length := by
    intro m hm
    rw [normP_length, ← (hgood m hm).2, col_length]
  rw [show rest.foldl (fun acc m => List.zipWith vadd acc (normP m)) (normP m0) =
        (rest.map normP).foldl (fun acc p => List.zipWith vadd acc p) (normP m0) from
      (List.foldl_map normP _ rest _).symm,
    getD_foldl_zipWith vadd (rest.map normP) (normP m0) (hn m0 (by simp))
      (by intro p hp
          obtain ⟨m, hm, rfl⟩ := List.mem_map.mp hp
          exact hn m (by simp [hm])) i hi (V.fin 0),
    List.foldl_map, ← List.foldl_map (fun m => (normP m).getD i (V.fin 0)) vadd rest,
    foldl_vadd_eq_foldr]
  rfl

theorem sandAcc_length {grid : List V} (m0 : List (List V)) (rest : List (List (List V)))
    (f : V → V → V)
    (hgood : ∀ m ∈ m0 :: rest, (2 ≤ m.length ∧ ∀ r ∈ m, 2 ≤ r.length) ∧ col m 0 = grid) :
    (rest.foldl (fun acc m => List.zipWith f acc (normP m)) (normP m0)).length =
      grid.length := by
  have hn : ∀ m ∈ m0 :: rest, (normP m).length = grid.length := by
    intro m hm
    rw [normP_length, ← (hgood m hm).2, col_length]
  rw [show rest.foldl (fun acc m => List.zipWith f acc (normP m)) (normP m0) =
        (rest.map normP).foldl (fun acc p => List.zipWith f acc p) (normP m0) from
      (List.foldl_map normP _ rest _).symm]
  refine foldl_zipWith_length f _ _ (hn m0 (by simp)) ?_
  intro p hp
  obtain ⟨m, hm, rfl⟩ := List.mem_map.mp hp
  exact hn m (by simp [hm])

/-- The AND accumulator after an all-valid run is the spec-side AND curve. -/
theorem sandAcc_eq_andCurve {grid : List V} (m0 : List (List V))
    (rest : List (List (List V)))
    (hgood : ∀ m ∈ m0 :: rest, (2 ≤ m.length ∧ ∀ r ∈ m, 2 ≤ r.length) ∧ col m 0 = grid) :
    rest.foldl (fun acc m => List.zipWith vmul acc (normP m)) (normP m0) =
      andCurve (m0 :: rest) grid.length := by
  have hlen := sandAcc_length m0 rest vmul hgood
  have hlen' : (andCurve (m0 :: rest) grid.length).length = grid.length := by
    simp [andCurve]
  apply List.ext_getElem (by rw [hlen, hlen'])
  intro i h1 h2
  rw [← List.getD_eq_getElem _ (V.fin 1) h1, ← List.getD_eq_getElem _ (V.fin 1) h2,
    sandAcc_getD m0 rest hgood i (by rw [← hlen]; exact h1)]
  rw [show (andCurve (m0 :: rest) grid.length).getD i (V.fin 1) =
        andNum (m0 :: rest) i from ?_]
  have hr : i < (List.range grid.length).length := by
    rw [List.length_range, ← hlen]; exact h1
  rw [andCurve, getD_map _ _ i hr (V.fin 1) 0, List.getD_eq_getElem _ _ hr,
    List.getElem_range]

/-- The OR accumulator after an all-valid run is the spec-side OR curve. -/
theorem sorAcc_eq_orCurve {grid : List V} (m0 : List (List V))
    (rest : List (List (List V)))
    (hgood : ∀ m ∈ m0 :: rest, (2 ≤ m.length ∧ ∀ r ∈ m, 2 ≤ r.length) ∧ col m 0 = grid) :
    rest.foldl (fun acc m => List.zipWith vadd acc (normP m)) (normP m0) =
      orCurve (m0 :: rest) grid.length := by
  have hlen := sandAcc_length m0 rest vadd hgood
  have hlen' : (orCurve (m0 :: rest) grid.length).length = grid.length := by
    simp [orCurve]
  apply List.ext_getElem (by rw [hlen, hlen'])
  intro i h1 h2
  rw [← List.getD_eq_getElem _ (V.fin 0) h1, ← List.getD_eq_getElem _ (V.fin 0) h2,
    sorAcc_getD m0 rest hgood i (by rw [← hlen]; exact h1)]
  rw [show (orCurve (m0 :: rest) grid.length).getD i (V.fin 0) =
        orNum (m0 :: rest) i from ?_]
  have hr : i < (List.range grid.length).length := by
    rw [List.length_range, ← hlen]; exact h1
  rw [orCurve, getD_map _ _ i hr (V.fin 0) 0, List.getD_eq_getElem _ _ hr,
    List.getElem_range]

/-- Shape and contents of the final table built from accumulators of a common
length. -/
theorem finalize_some (fr sa so : List V) (hsa : sa.length = fr.length)
    (hso : so.length = fr.length) :
    ∃ T, finalize (some (fr, sa, so)) = Except.ok T ∧ T.length = fr.length ∧
      ∀ i, i < fr.length →
        T.getD i (V.bad, V.bad, V.bad) =
          (fr.getD i V.bad,
           vdiv (sa.getD i V.bad) (trapz sa fr),
           vdiv (so.getD i V.bad) (trapz so fr)) := by
  refine ⟨_, rfl, ?_, ?_⟩
  · simp [List.length_zipWith, List.length_zip, hsa, hso]
  · intro i hi
    have hN : (sa.map (fun y => vdiv y (trapz sa fr))).length = fr.length := by
      rw [List.length_map, hsa]
    have hM : (so.map (fun y => vdiv y (trapz so fr))).length = fr.length := by
      rw [List.length_map, hso]
    have hz : i < ((sa.map (fun y => vdiv y (trapz sa fr))).zip
        (so.map (fun y => vdiv y (trapz so fr)))).length := by
      rw [List.length_zip, hN, hM, min_self]; exact hi
    rw [getD_zipWith (fun x p => (x, p)) fr _ i V.bad (V.bad, V.bad) _ hi hz]
    rw [show (sa.map (fun y => vdiv y (trapz sa fr))).zip
          (so.map (fun y => vdiv y (trapz so fr))) =
        List.zipWith Prod.mk (sa.map (fun y => vdiv y (trapz sa fr)))
          (so.map (fun y => vdiv y (trapz so fr))) from rfl]
    rw [getD_zipWith Prod.mk _ _ i V.bad V.bad _ (by omega) (by omega)]
    rw [getD_map _ _ i (by omega) V.bad V.bad, getD_map _ _ i (by omega) V.bad V.bad]

theorem andCurve_getD (mats : List (List (List V))) (n i : Nat) (hi : i < n) (d : V) :
    (andCurve mats n).getD i d = andNum mats i := by
  have hr : i < (List.range n).length := by simpa
  rw [andCurve, getD_map _ _ i hr d 0, List.getD_eq_getElem _ _ hr, List.getElem_range]

theorem orCurve_getD (mats : List (List (List V))) (n i : Nat) (hi : i < n) (d : V) :
    (orCurve mats n).getD i d = orNum mats i := by
  have hr : i < (List.range n).length := by simpa
  rw [orCurve, getD_map _ _ i hr d 0, List.getD_eq_getElem _ _ hr, List.getElem_range]

/-- Full characterization of a run over files that all load successfully and
share the grid: the error log stays empty and the table realizes the
spec-side product/sum formulas, each renormalized by its own integral. -/
theorem calc_allOk {grid : List V} (m0 : List (List V)) (rest : List (List (List V)))
    (hgood : ∀ m ∈ m0 :: rest, (2 ≤ m.length ∧ ∀ r ∈ m, 2 ≤ r.length) ∧ col m 0 = grid) :
    ∃ T, calcStacked ((m0 :: rest).map okFile) = (Except.ok T, []) ∧
      T.length = grid.length ∧
      ∀ i, i < grid.length →
        T.getD i (V.bad, V.bad, V.bad) =
          (grid.getD i V.bad,
           vdiv (andNum (m0 :: rest) i) (trapz (andCurve (m0 :: rest) grid.length) grid),
           vdiv (orNum (m0 :: rest) i) (trapz (orCurve (m0 :: rest) grid.length) grid)) := by
  have hrun := run_allOk m0 rest hgood
  have hSA := sandAcc_eq_andCurve m0 rest hgood
  have hSO := sorAcc_eq_orCurve m0 rest hgood
  have hsaLen : (andCurve (m0 :: rest) grid.length).length = grid.length := by
    simp [andCurve]
  have hsoLen : (orCurve (m0 :: rest) grid.length).length = grid.length := by
    simp [orCurve]
  obtain ⟨T, hT, hTlen, hTget⟩ :=
    finalize_some grid (andCurve (m0 :: rest) grid.length)
      (orCurve (m0 :: rest) grid.length) hsaLen hsoLen
  refine ⟨T, ?_, hTlen, ?_⟩
  · rw [hSA, hSO] at hrun
    simp only [calcStacked, hrun, hT]
  · intro i hi
    rw [hTget i hi, andCurve_getD _ _ i hi V.bad, orCurve_getD _ _ i hi V.bad]

/-- The same run, phrased as an equation on the whole result. -/
theorem calc_allOk_eq {grid : List V} (m0 : List (List V)) (rest : List (List (List V)))
    (hgood : ∀ m ∈ m0 :: rest, (2 ≤ m.length ∧ ∀ r ∈ m, 2 ≤ r.length) ∧ col m 0 = grid) :
    calcStacked ((m0 :: rest).map okFile) =
      (finalize (some (grid, andCurve (m0 :: rest) grid.length,
        orCurve (m0 :: rest) grid.length)), []) := by
  have hrun := run_allOk m0 rest hgood
  rw [sandAcc_eq_andCurve m0 rest hgood, sorAcc_eq_orCurve m0 rest hgood] at hrun
  simp only [calcStacked, hrun]

/-! ### Further helper lemmas -/

theorem vdiv_one_right (a : V) : vdiv a (V.fin 1) = a := by
  cases a <;> simp [vdiv]

theorem getD_congr_default {α : Type} (l : List α) (i : Nat) (hi : i < l.length)
    (d d' : α) : l.getD i d = l.getD i d' := by
  rw [List.getD_eq_getElem _ _ hi, List.getD_eq_getElem _ _ hi]

theorem exists_cons_cons {l : List V} (h : 2 ≤ l.length) :
    ∃ a b t, l = a :: b :: t := by
  cases l with
  | nil => simp at h
  | cons a l1 =>
    cases l1 with
    | nil => simp at h
    | cons b t => exact ⟨a, b, t, rfl⟩

theorem foldr_vmul_eq_bad {l : List V} (hx : V.bad ∈ l) :
    l.foldr vmul (V.fin 1) = V.bad := by
  induction l with
  | nil => simp at hx
  | cons y ys ih =>
    rw [List.foldr_cons]
    rcases List.mem_cons.mp hx with h | h
    · rw [← h, vmul_bad_left]
    · rw [ih h, vmul_bad_right]

theorem foldr_vadd_eq_bad {l : List V} (hx : V.bad ∈ l) :
    l.foldr vadd (V.fin 0) = V.bad := by
  induction l with
  | nil => simp at hx
  | cons y ys ih =>
    rw [List.foldr_cons]
    rcases List.mem_cons.mp hx with h | h
    · rw [← h, vadd_bad_left]
    · rw [ih h, vadd_bad_right]

instance : LeftCommutative vmul :=
  ⟨fun a b c => by rw [← vmul_assoc, vmul_comm a b, vmul_assoc]⟩

instance : LeftCommutative vadd :=
  ⟨fun a b c => by rw [← vadd_assoc, vadd_comm a b, vadd_assoc]⟩

theorem andNum_perm {mats1 mats2 : List (List (List V))} (h : mats1.Perm mats2)
    (i : Nat) : andNum mats1 i = andNum mats2 i :=
  (h.map (fun m => (normP m).getD i (V.fin 1))).foldr_eq (V.fin 1)

theorem orNum_perm {mats1 mats2 : List (List (List V))} (h : mats1.Perm mats2)
    (i : Nat) : orNum mats1 i = orNum mats2 i :=
  (h.map (fun m => (normP m).getD i (V.fin 0))).foldr_eq (V.fin 0)

theorem map_fst_zipWith_pair {α β : Type} (xs : List α) (zs : List β)
    (h : xs.length = zs.length) :
    (List.zipWith (fun x p => (x, p)) xs zs).map (fun r => r.1) = xs := by
  induction xs generalizing zs with
  | nil => rfl
  | cons x xt ih =>
    cases zs with
    | nil => simp at h
    | cons z zt =>
      rw [List.zipWith_cons_cons, List.map_cons, ih zt (by simpa using h)]

theorem map_snd_zipWith_pair {α β : Type} (xs : List α) (zs : List β)
    (h : xs.length = zs.length) :
    (List.zipWith (fun x p => (x, p)) xs zs).map (fun r => r.2) = zs := by
  induction xs generalizing zs with
  | nil => cases zs with
    | nil => rfl
    | cons z zt => simp at h
  | cons x xt ih =>
    cases zs with
    | nil => simp at h
    | cons z zt =>
      rw [List.zipWith_cons_cons, List.map_cons, ih zt (by simpa using h)]

/-- A run in which no file loads successfully leaves the accumulators `None`
and logs every file. -/
theorem run_allFail (files : List RawFile) (st : CalcState)
    (h : ∀ f ∈ files, ∃ e, loadNorm f = Except.error e) :
    (files.foldl step st).acc = st.acc ∧
    (files.foldl step st).error_files.map Prod.fst =
      st.error_files.map Prod.fst ++ files.map RawFile.name := by
  induction files generalizing st with
  | nil => simp
  | cons f fs ih =>
    obtain ⟨e, he⟩ := h f (by simp)
    have hstep : step st f =
        { st with error_files := st.error_files ++ [(f.name, pyStr e)] } := by
      simp [step, he]
    rw [List.foldl_cons, hstep]
    obtain ⟨h1, h2⟩ := ih _ (fun g hg => h g (by simp [hg]))
    refine ⟨h1, ?_⟩
    rw [h2]
    simp

/-! ### Claim theorems -/

/-- C1: for N input files that all parse successfully and share an identical
frequency grid, the final table's AND value at each grid index i is the
product over all files of that file's power at i divided by the trapezoidal
integral of its power over its frequency column, the product then divided by
its own trapezoidal integral over the grid; the OR value is the corresponding
sum of per-file normalized powers divided by its own trapezoidal integral. -/
theorem claim1_and_or_formula (mats : List (List (List V))) (grid : List V)
    (hne : mats ≠ [])
    (hgood : ∀ m ∈ mats, (2 ≤ m.length ∧ ∀ r ∈ m, 2 ≤ r.length) ∧ col m 0 = grid) :
    ∃ T, calcStacked (mats.map okFile) = (Except.ok T, []) ∧
      T.length = grid.length ∧
      ∀ i, i < grid.length →
        T.getD i (V.bad, V.bad, V.bad) =
          (grid.getD i V.bad,
           vdiv (andNum mats i) (trapz (andCurve mats grid.length) grid),
           vdiv (orNum mats i) (trapz (orCurve mats grid.length) grid)) := by
  cases mats with
  | nil => exact absurd rfl hne
  | cons m0 rest => exact calc_allOk m0 rest hgood

/-- Witness for C1 at two concrete files on the grid [0, 1]. -/
theorem claim1_witness :
    (([[[V.fin 0, V.fin 1], [V.fin 1, V.fin 1]],
       [[V.fin 0, V.fin 2], [V.fin 1, V.fin 6]]] : List (List (List V))) ≠ [] ∧
     ∀ m ∈ ([[[V.fin 0, V.fin 1], [V.fin 1, V.fin 1]],
       [[V.fin 0, V.fin 2], [V.fin 1, V.fin 6]]] : List (List (List V))),
       (2 ≤ m.length ∧ ∀ r ∈ m, 2 ≤ r.length) ∧ col m 0 = [V.fin 0, V.fin 1]) ∧
    ∃ T, calcStacked (([[[V.fin 0, V.fin 1], [V.fin 1, V.fin 1]],
        [[V.fin 0, V.fin 2], [V.fin 1, V.fin 6]]]).map okFile) = (Except.ok T, []) ∧
      T.length = ([V.fin 0, V.fin 1] : List V).length ∧
      ∀ i, i < ([V.fin 0, V.fin 1] : List V).length →
        T.getD i (V.bad, V.bad, V.bad) =
          (([V.fin 0, V.fin 1] : List V).getD i V.bad,
           vdiv (andNum [[[V.fin 0, V.fin 1], [V.fin 1, V.fin 1]],
              [[V.fin 0, V.fin 2], [V.fin 1, V.fin 6]]] i)
             (trapz (andCurve [[[V.fin 0, V.fin 1], [V.fin 1, V.fin 1]],
                [[V.fin 0, V.fin 2], [V.fin 1, V.fin 6]]]
                ([V.fin 0, V.fin 1] : List V).length) [V.fin 0, V.fin 1]),
           vdiv (orNum [[[V.fin 0, V.fin 1], [V.fin 1, V.fin 1]],
              [[V.fin 0, V.fin 2], [V.fin 1, V.fin 6]]] i)
             (trapz (orCurve [[[V.fin 0, V.fin 1], [V.fin 1, V.fin 1]],
                [[V.fin 0, V.fin 2], [V.fin 1, V.fin 6]]]
                ([V.fin 0, V.fin 1] : List V).length) [V.fin 0, V.fin 1])) :=
  ⟨⟨by decide, by decide⟩, claim1_and_or_formula _ _ (by decide) (by decide)⟩

/-- C3: the concrete three-file scenario on the grid [1, 2, 3] with powers
[1,1,1], [2,2,2] and [0,0,4]: per-file normalization gives [1/2,1/2,1/2],
[1/2,1/2,1/2] and [0,0,2]; the AND accumulator is [0,0,1/2] with trapezoidal
integral 1/4, so the final AND column is [0,0,2]; the OR accumulator is
[1,1,3] with trapezoidal integral 3, so the final OR column is
[1/3,1/3,1]. -/
theorem claim3_concrete_scenario :
    normP [[V.fin 1, V.fin 1], [V.fin 2, V.fin 1], [V.fin 3, V.fin 1]] =
      [V.fin (1/2), V.fin (1/2), V.fin (1/2)] ∧
    normP [[V.fin 1, V.fin 2], [V.fin 2, V.fin 2], [V.fin 3, V.fin 2]] =
      [V.fin (1/2), V.fin (1/2), V.fin (1/2)] ∧
    normP [[V.fin 1, V.fin 0], [V.fin 2, V.fin 0], [V.fin 3, V.fin 4]] =
      [V.fin 0, V.fin 0, V.fin 2] ∧
    (([[[V.fin 1, V.fin 1], [V.fin 2, V.fin 1], [V.fin 3, V.fin 1]],
       [[V.fin 1, V.fin 2], [V.fin 2, V.fin 2], [V.fin 3, V.fin 2]],
       [[V.fin 1, V.fin 0], [V.fin 2, V.fin 0], [V.fin 3, V.fin 4]]].map okFile).foldl
        step state0).acc =
      some ([V.fin 1, V.fin 2, V.fin 3],
        [V.fin 0, V.fin 0, V.fin (1/2)], [V.fin 1, V.fin 1, V.fin 3]) ∧
    trapz [V.fin 0, V.fin 0, V.fin (1/2)] [V.fin 1, V.fin 2, V.fin 3] = V.fin (1/4) ∧
    trapz [V.fin 1, V.fin 1, V.fin 3] [V.fin 1, V.fin 2, V.fin 3] = V.fin 3 ∧
    calcStacked ([[[V.fin 1, V.fin 1], [V.fin 2, V.fin 1], [V.fin 3, V.fin 1]],
       [[V.fin 1, V.fin 2], [V.fin 2, V.fin 2], [V.fin 3, V.fin 2]],
       [[V.fin 1, V.fin 0], [V.fin 2, V.fin 0], [V.fin 3, V.fin 4]]].map okFile) =
      (Except.ok [(V.fin 1, V.fin 0, V.fin (1/3)),
                  (V.fin 2, V.fin 0, V.fin (1/3)),
                  (V.fin 3, V.fin 2, V.fin 1)], []) := by
  norm_num [calcStacked, state0, step, loadNorm, okFile, normP, col, trapz, vadd, vsub,
    vmul, vdiv, finalize]

/-- C6, as stated, is false on the code: on an empty (or fully unreadable)
directory the run does fail and produces no table, but the failure is a
builtin exception raised inside numpy (`np.trapz` applied to the still-`None`
accumulators), not a distinguishable named `NoValidInputError` — the source
defines no exception class at all. -/
theorem claim6_counterexample :
    calcStacked [] = (Except.error PyErr.noneTrapzError, []) ∧
    errName PyErr.noneTrapzError = "IndexError" ∧
    errName PyErr.noneTrapzError ≠ "NoValidInputError" :=
  ⟨rfl, rfl, by decide⟩

/-- C6 amended: if zero files load successfully, the run fails with an
unhandled builtin exception from the final `np.trapz(None, None)` call (not a
named `NoValidInputError`), no `stacked` table is produced, and every file is
recorded in `error_files`. -/
theorem claim6_no_valid_input (files : List RawFile)
    (h : ∀ f ∈ files, ∃ e, loadNorm f = Except.error e) :
    (calcStacked files).fst = Except.error PyErr.noneTrapzError ∧
    (calcStacked files).snd.map Prod.fst = files.map RawFile.name := by
  obtain ⟨h1, h2⟩ := run_allFail files state0 h
  constructor
  · simp only [calcStacked]
    rw [h1]
    rfl
  · simp only [calcStacked]
    simpa [state0] using h2

/-- Witness for C6 at one unparseable file. -/
theorem claim6_witness :
    (∀ f ∈ [RawFile.mk "bad.dat" (Except.error "could not convert string to float")],
      ∃ e, loadNorm f = Except.error e) ∧
    (calcStacked [RawFile.mk "bad.dat"
        (Except.error "could not convert string to float")]).fst =
      Except.error PyErr.noneTrapzError ∧
    (calcStacked [RawFile.mk "bad.dat"
        (Except.error "could not convert string to float")]).snd.map Prod.fst =
      [RawFile.mk "bad.dat"
        (Except.error "could not convert string to float")].map RawFile.name := by
  have hh : ∀ f ∈ [RawFile.mk "bad.dat"
      (Except.error "could not convert string to float")],
      ∃ e, loadNorm f = Except.error e := by
    intro f hf
    rw [List.mem_singleton] at hf
    subst hf
    exact ⟨PyErr.parseError "could not convert string to float", rfl⟩
  exact ⟨hh, claim6_no_valid_input _ hh⟩

/-- C7: a file that fails to parse is appended to `error_files` as the pair
(filename, diagnostic text), the run continues, and the final table is the
one produced with that file absent; the error log is the absent-file log with
the pair inserted at the corresponding position. -/
theorem claim7_parse_error_logged (pre post : List RawFile) (f : RawFile)
    (msg : String) (hf : f.parsed = Except.error msg) :
    (calcStacked (pre ++ f :: post)).fst = (calcStacked (pre ++ post)).fst ∧
    ∃ l1 l2,
      (calcStacked (pre ++ f :: post)).snd = l1 ++ (f.name, msg) :: l2 ∧
      (calcStacked (pre ++ post)).snd = l1 ++ l2 := by
  have hload := loadNorm_error_parsed hf
  have hstep : step (pre.foldl step state0) f =
      { pre.foldl step state0 with
        error_files := (pre.foldl step state0).error_files ++ [(f.name, msg)] } := by
    simp [step, hload, pyStr]
  have hfold1 : (pre ++ f :: post).foldl step state0 =
      post.foldl step (step (pre.foldl step state0) f) := by
    rw [List.foldl_append, List.foldl_cons]
  have hfold2 : (pre ++ post).foldl step state0 =
      post.foldl step (pre.foldl step state0) := by
    rw [List.foldl_append]
  have hacc_eq : (post.foldl step (step (pre.foldl step state0) f)).acc =
      (post.foldl step (pre.foldl step state0)).acc := by
    rw [foldl_step_acc post (step (pre.foldl step state0) f),
      foldl_step_acc post (pre.foldl step state0), hstep]
  constructor
  · simp only [calcStacked, hfold1, hfold2]
    rw [hacc_eq]
  · refine ⟨(pre.foldl step state0).error_files,
      (post.foldl step { error_files := [], acc := (pre.foldl step state0).acc }).error_files,
      ?_, ?_⟩
    · simp only [calcStacked, hfold1]
      rw [foldl_step_errs post (step (pre.foldl step state0) f), hstep]
      simp
    · simp only [calcStacked, hfold2]
      rw [foldl_step_errs post (pre.foldl step state0)]

/-- Witness for C7: one bad file in front of one good file. -/
theorem claim7_witness :
    (RawFile.mk "broken.dat" (Except.error "bad line")).parsed =
      Except.error "bad line" ∧
    ((calcStacked ([] ++ RawFile.mk "broken.dat" (Except.error "bad line") ::
        [okFile [[V.fin 0, V.fin 1], [V.fin 1, V.fin 1]]])).fst =
      (calcStacked ([] ++ [okFile [[V.fin 0, V.fin 1], [V.fin 1, V.fin 1]]])).fst ∧
     ∃ l1 l2,
      (calcStacked ([] ++ RawFile.mk "broken.dat" (Except.error "bad line") ::
        [okFile [[V.fin 0, V.fin 1], [V.fin 1, V.fin 1]]])).snd =
          l1 ++ ((RawFile.mk "broken.dat" (Except.error "bad line")).name, "bad line") :: l2 ∧
      (calcStacked ([] ++ [okFile [[V.fin 0, V.fin 1], [V.fin 1, V.fin 1]]])).snd =
          l1 ++ l2) :=
  ⟨rfl, claim7_parse_error_logged [] [okFile [[V.fin 0, V.fin 1], [V.fin 1, V.fin 1]]]
    (RawFile.mk "broken.dat" (Except.error "bad line")) "bad line" rfl⟩

/-- C5: permuting the discovery order of a set of valid input files sharing
one grid yields exactly the same result (table and error log); in exact
arithmetic the equality is on the nose, which implies the claimed
equality-within-tolerance. -/
theorem claim5_order_independence (mats1 mats2 : List (List (List V)))
    (grid : List V) (hperm : mats1.Perm mats2) (hne : mats1 ≠ [])
    (hgood : ∀ m ∈ mats1, (2 ≤ m.length ∧ ∀ r ∈ m, 2 ≤ r.length) ∧ col m 0 = grid) :
    calcStacked (mats1.map okFile) = calcStacked (mats2.map okFile) := by
  have hgood2 : ∀ m ∈ mats2, (2 ≤ m.length ∧ ∀ r ∈ m, 2 ≤ r.length) ∧ col m 0 = grid :=
    fun m hm => hgood m (hperm.mem_iff.mpr hm)
  have hne2 : mats2 ≠ [] := by
    intro h
    subst h
    exact hne hperm.eq_nil
  obtain ⟨m0, rest, rfl⟩ := List.exists_cons_of_ne_nil hne
  obtain ⟨m0', rest', rfl⟩ := List.exists_cons_of_ne_nil hne2
  rw [calc_allOk_eq m0 rest hgood, calc_allOk_eq m0' rest' hgood2]
  have hand : andCurve (m0 :: rest) grid.length = andCurve (m0' :: rest') grid.length :=
    List.map_congr_left (fun i _ => andNum_perm hperm i)
  have hor : orCurve (m0 :: rest) grid.length = orCurve (m0' :: rest') grid.length :=
    List.map_congr_left (fun i _ => orNum_perm hperm i)
  rw [hand, hor]

/-- Witness for C5: two concrete files folded in both orders. -/
theorem claim5_witness :
    (([[[V.fin 0, V.fin 1], [V.fin 1, V.fin 1]],
       [[V.fin 0, V.fin 2], [V.fin 1, V.fin 6]]] : List (List (List V))).Perm
      [[[V.fin 0, V.fin 2], [V.fin 1, V.fin 6]],
       [[V.fin 0, V.fin 1], [V.fin 1, V.fin 1]]]) ∧
    calcStacked (([[[V.fin 0, V.fin 1], [V.fin 1, V.fin 1]],
        [[V.fin 0, V.fin 2], [V.fin 1, V.fin 6]]]).map okFile) =
      calcStacked (([[[V.fin 0, V.fin 2], [V.fin 1, V.fin 6]],
        [[V.fin 0, V.fin 1], [V.fin 1, V.fin 1]]]).map okFile) :=
  ⟨List.Perm.swap _ _ _, claim5_order_independence _ _ [V.fin 0, V.fin 1]
    (List.Perm.swap _ _ _) (by decide) (by decide)⟩

/-- C4: whenever the accumulators at the end of the loop have nonzero finite
trapezoidal integrals, the trapezoidal integral of the final AND column over
the frequency column is exactly 1, and likewise for the OR column. -/
theorem claim4_final_integral_one (files : List RawFile) (fr sa so : List V)
    (a b : ℚ) (hacc : (files.foldl step state0).acc = some (fr, sa, so))
    (hA : trapz sa fr = V.fin a) (ha : a ≠ 0)
    (hB : trapz so fr = V.fin b) (hb : b ≠ 0) :
    ∃ T, (calcStacked files).fst = Except.ok T ∧
      trapz (T.map (fun r => r.2.1)) (T.map (fun r => r.1)) = V.fin 1 ∧
      trapz (T.map (fun r => r.2.2)) (T.map (fun r => r.1)) = V.fin 1 := by
  have hinv := run_inv files
  rw [hacc] at hinv
  obtain ⟨hsa, hso, hfr2⟩ := hinv
  obtain ⟨hfinsa, hfinfr⟩ :=
    trapz_fin_forces_allFin (by rw [hsa]) (by rw [hsa]; exact hfr2) hA
  obtain ⟨hfinso, -⟩ :=
    trapz_fin_forces_allFin (by rw [hso]) (by rw [hso]; exact hfr2) hB
  have hNlen : (sa.map (fun y => vdiv y (trapz sa fr))).length = fr.length := by
    rw [List.length_map, hsa]
  have hMlen : (so.map (fun y => vdiv y (trapz so fr))).length = fr.length := by
    rw [List.length_map, hso]
  have hzlen : fr.length =
      ((sa.map (fun y => vdiv y (trapz sa fr))).zip
        (so.map (fun y => vdiv y (trapz so fr)))).length := by
    rw [List.length_zip, hNlen, hMlen, min_self]
  refine ⟨List.zipWith (fun x p => (x, p)) fr
      ((sa.map (fun y => vdiv y (trapz sa fr))).zip
        (so.map (fun y => vdiv y (trapz so fr)))), ?_, ?_, ?_⟩
  · simp only [calcStacked]
    rw [hacc]
    rfl
  · rw [show (List.zipWith (fun x p => (x, p)) fr
        ((sa.map (fun y => vdiv y (trapz sa fr))).zip
          (so.map (fun y => vdiv y (trapz so fr))))).map (fun r => r.2.1) =
        ((List.zipWith (fun x p => (x, p)) fr
          ((sa.map (fun y => vdiv y (trapz sa fr))).zip
            (so.map (fun y => vdiv y (trapz so fr))))).map (fun r => r.2)).map
          (fun p => p.1) from by rw [List.map_map]; rfl]
    rw [map_snd_zipWith_pair _ _ hzlen, map_fst_zipWith_pair _ _ hzlen]
    rw [show ((sa.map (fun y => vdiv y (trapz sa fr))).zip
        (so.map (fun y => vdiv y (trapz so fr)))) =
        List.zipWith (fun x p => (x, p)) (sa.map (fun y => vdiv y (trapz sa fr)))
          (so.map (fun y => vdiv y (trapz so fr))) from rfl]
    rw [map_fst_zipWith_pair _ _ (by rw [hNlen, hMlen])]
    rw [hA, trapz_map_vdiv fr hfinsa hfinfr ha, hA, vdiv_fin_ne ha, div_self ha]
  · rw [show (List.zipWith (fun x p => (x, p)) fr
        ((sa.map (fun y => vdiv y (trapz sa fr))).zip
          (so.map (fun y => vdiv y (trapz so fr))))).map (fun r => r.2.2) =
        ((List.zipWith (fun x p => (x, p)) fr
          ((sa.map (fun y => vdiv y (trapz sa fr))).zip
            (so.map (fun y => vdiv y (trapz so fr))))).map (fun r => r.2)).map
          (fun p => p.2) from by rw [List.map_map]; rfl]
    rw [map_snd_zipWith_pair _ _ hzlen, map_fst_zipWith_pair _ _ hzlen]
    rw [show ((sa.map (fun y => vdiv y (trapz sa fr))).zip
        (so.map (fun y => vdiv y (trapz so fr)))) =
        List.zipWith (fun x p => (x, p)) (sa.map (fun y => vdiv y (trapz sa fr)))
          (so.map (fun y => vdiv y (trapz so fr))) from rfl]
    rw [map_snd_zipWith_pair _ _ (by rw [hNlen, hMlen])]
    rw [hB, trapz_map_vdiv fr hfinso hfinfr hb, hB, vdiv_fin_ne hb, div_self hb]

/-- Witness for C4 at a single file whose accumulators integrate to 1. -/
theorem claim4_witness :
    (([okFile [[V.fin 0, V.fin 1], [V.fin 1, V.fin 1]]].foldl step state0).acc =
      some ([V.fin 0, V.fin 1], [V.fin 1, V.fin 1], [V.fin 1, V.fin 1])) ∧
    trapz [V.fin 1, V.fin 1] [V.fin 0, V.fin 1] = V.fin 1 ∧
    ∃ T, (calcStacked [okFile [[V.fin 0, V.fin 1], [V.fin 1, V.fin 1]]]).fst =
        Except.ok T ∧
      trapz (T.map (fun r => r.2.1)) (T.map (fun r => r.1)) = V.fin 1 ∧
      trapz (T.map (fun r => r.2.2)) (T.map (fun r => r.1)) = V.fin 1 := by
  have hacc : ([okFile [[V.fin 0, V.fin 1], [V.fin 1, V.fin 1]]].foldl step state0).acc =
      some ([V.fin 0, V.fin 1], [V.fin 1, V.fin 1], [V.fin 1, V.fin 1]) := by
    norm_num [state0, step, loadNorm, okFile, normP, col, trapz, vadd, vsub, vmul, vdiv]
  have htr : trapz [V.fin 1, V.fin 1] [V.fin 0, V.fin 1] = V.fin 1 := by
    norm_num [trapz, vadd, vsub, vmul, vdiv]
  exact ⟨hacc, htr,
    claim4_final_integral_one _ _ _ _ 1 1 hacc htr one_ne_zero htr one_ne_zero⟩

/-- C2: for a run over exactly one valid (finite-valued, well-shaped) input
file, the AND and OR columns of the final table are equal to each other and
equal to the file's power column divided by the trapezoidal integral of power
over frequency. -/
theorem claim2_single_file (m : List (List V))
    (hdim : 2 ≤ m.length ∧ ∀ r ∈ m, 2 ≤ r.length)
    (hfin0 : allFin (col m 0) = true) (hfin1 : allFin (col m 1) = true) :
    ∃ T, calcStacked [okFile m] = (Except.ok T, []) ∧ T.length = m.length ∧
      ∀ i, i < m.length →
        (T.getD i (V.bad, V.bad, V.bad)).2.1 = (T.getD i (V.bad, V.bad, V.bad)).2.2 ∧
        (T.getD i (V.bad, V.bad, V.bad)).2.1 =
          vdiv ((col m 1).getD i V.bad) (trapz (col m 1) (col m 0)) := by
  have hgood : ∀ m' ∈ [m], (2 ≤ m'.length ∧ ∀ r ∈ m', 2 ≤ r.length) ∧
      col m' 0 = col m 0 := by
    intro m' hm'
    rw [List.mem_singleton] at hm'
    subst hm'
    exact ⟨hdim, rfl⟩
  have hglen : (col m 0).length = m.length := col_length m 0
  obtain ⟨T, hT, hTlen, hTget⟩ := calc_allOk m [] hgood
  have hAC : normP m = andCurve [m] (col m 0).length := by
    have h := sandAcc_eq_andCurve m [] hgood
    simpa using h
  have hOC : normP m = orCurve [m] (col m 0).length := by
    have h := sorAcc_eq_orCurve m [] hgood
    simpa using h
  refine ⟨T, hT, by rw [hTlen, hglen], ?_⟩
  intro i hi
  have hig : i < (col m 0).length := by rw [hglen]; exact hi
  have hic : i < (col m 1).length := by rw [col_length]; exact hi
  have hTi := hTget i hig
  have handN : andNum [m] i = (normP m).getD i (V.fin 1) := by
    show (List.map (fun m' => (normP m').getD i (V.fin 1)) [m]).foldr vmul (V.fin 1) = _
    rw [List.map_cons, List.map_nil, List.foldr_cons, List.foldr_nil, vmul_one_right]
  have horN : orNum [m] i = (normP m).getD i (V.fin 0) := by
    show (List.map (fun m' => (normP m').getD i (V.fin 0)) [m]).foldr vadd (V.fin 0) = _
    rw [List.map_cons, List.map_nil, List.foldr_cons, List.foldr_nil, vadd_zero_right]
  obtain ⟨c, hI⟩ := trapz_allFin (col m 0) hfin1 hfin0
  by_cases hc : c = 0
  · subst hc
    have hnbad : ∀ (j : Nat) (d d' : V), j < m.length →
        (normP m).getD j d = V.bad := by
      intro j d d' hj
      rw [normP, getD_map _ _ j (by rw [col_length]; exact hj) d V.bad, hI,
        vdiv_zero_right]
    have hnplen : 2 ≤ (normP m).length := by rw [normP_length]; exact hdim.1
    obtain ⟨n0, n1, nt, hnp⟩ := exists_cons_cons hnplen
    obtain ⟨g0, g1, gt, hg⟩ := exists_cons_cons (by rw [hglen]; exact hdim.1)
    have hn0 : n0 = V.bad := by
      have := hnbad 0 V.bad V.bad (by omega)
      rw [hnp] at this
      simpa using this
    have hbadI : trapz (normP m) (col m 0) = V.bad := by
      rw [hnp, hg, hn0, trapz_bad_head]
    rw [hTi]
    constructor
    · show vdiv (andNum [m] i) (trapz (andCurve [m] (col m 0).length) (col m 0)) =
        vdiv (orNum [m] i) (trapz (orCurve [m] (col m 0).length) (col m 0))
      rw [← hAC, ← hOC, hbadI, vdiv_bad_right, vdiv_bad_right]
    · show vdiv (andNum [m] i) (trapz (andCurve [m] (col m 0).length) (col m 0)) = _
      rw [← hAC, hbadI, vdiv_bad_right, hI, vdiv_zero_right]
  · have htrN : trapz (normP m) (col m 0) = V.fin 1 := by
      rw [normP, hI, trapz_map_vdiv (col m 0) hfin1 hfin0 hc, hI, vdiv_fin_ne hc,
        div_self hc]
    rw [hTi]
    have hval : (normP m).getD i (V.fin 1) =
        vdiv ((col m 1).getD i V.bad) (trapz (col m 1) (col m 0)) := by
      rw [normP, getD_map _ _ i hic (V.fin 1) V.bad]
    constructor
    · show vdiv (andNum [m] i) (trapz (andCurve [m] (col m 0).length) (col m 0)) =
        vdiv (orNum [m] i) (trapz (orCurve [m] (col m 0).length) (col m 0))
      rw [← hAC, ← hOC, htrN, vdiv_one_right, vdiv_one_right, handN, horN]
      exact getD_congr_default _ i (by rw [normP_length]; exact hi) _ _
    · show vdiv (andNum [m] i) (trapz (andCurve [m] (col m 0).length) (col m 0)) = _
      rw [← hAC, htrN, vdiv_one_right, handN, hval]

/-- Witness for C2 at one concrete file. -/
theorem claim2_witness :
    ((2 ≤ ([[V.fin 0, V.fin 1], [V.fin 1, V.fin 3]] : List (List V)).length ∧
      ∀ r ∈ ([[V.fin 0, V.fin 1], [V.fin 1, V.fin 3]] : List (List V)), 2 ≤ r.length) ∧
     allFin (col [[V.fin 0, V.fin 1], [V.fin 1, V.fin 3]] 0) = true ∧
     allFin (col [[V.fin 0, V.fin 1], [V.fin 1, V.fin 3]] 1) = true) ∧
    ∃ T, calcStacked [okFile [[V.fin 0, V.fin 1], [V.fin 1, V.fin 3]]] =
        (Except.ok T, []) ∧
      T.length = ([[V.fin 0, V.fin 1], [V.fin 1, V.fin 3]] : List (List V)).length ∧
      ∀ i, i < ([[V.fin 0, V.fin 1], [V.fin 1, V.fin 3]] : List (List V)).length →
        (T.getD i (V.bad, V.bad, V.bad)).2.1 = (T.getD i (V.bad, V.bad, V.bad)).2.2 ∧
        (T.getD i (V.bad, V.bad, V.bad)).2.1 =
          vdiv ((col [[V.fin 0, V.fin 1], [V.fin 1, V.fin 3]] 1).getD i V.bad)
            (trapz (col [[V.fin 0, V.fin 1], [V.fin 1, V.fin 3]] 1)
              (col [[V.fin 0, V.fin 1], [V.fin 1, V.fin 3]] 0)) :=
  ⟨⟨by decide, by decide, by decide⟩,
    claim2_single_file _ (by decide) (by decide) (by decide)⟩

/-- C8: when a trapezoidal integral used as a divisor is exactly zero — a
per-file normalization integral, or the integral of a final accumulator —
the code raises nothing and records nothing in `error_files`: the division is
performed unchecked and the resulting non-finite values land in the final
table undetected (the affected column is non-finite at every row). -/
theorem claim8_zero_integral_silent (mats : List (List (List V))) (grid : List V)
    (hne : mats ≠ [])
    (hgood : ∀ m ∈ mats, (2 ≤ m.length ∧ ∀ r ∈ m, 2 ≤ r.length) ∧ col m 0 = grid)
    (hzero : (∃ m ∈ mats, trapz (col m 1) (col m 0) = V.fin 0) ∨
      trapz (andCurve mats grid.length) grid = V.fin 0 ∨
      trapz (orCurve mats grid.length) grid = V.fin 0) :
    ∃ T, calcStacked (mats.map okFile) = (Except.ok T, []) ∧ 0 < T.length ∧
      ∀ r ∈ T, r.2.1 = V.bad ∨ r.2.2 = V.bad := by
  cases mats with
  | nil => exact absurd rfl hne
  | cons m0 rest =>
    obtain ⟨T, hT, hTlen, hTget⟩ := calc_allOk m0 rest hgood
    have hg2 : 2 ≤ grid.length := by
      have h0 := hgood m0 (by simp)
      rw [← h0.2, col_length]
      exact h0.1.1
    refine ⟨T, hT, by omega, ?_⟩
    intro r hr
    obtain ⟨i, hiT, hri⟩ := List.mem_iff_getElem.mp hr
    have hig : i < grid.length := by rw [← hTlen]; exact hiT
    have hrd : r = T.getD i (V.bad, V.bad, V.bad) := by
      rw [List.getD_eq_getElem _ _ hiT, hri]
    rw [hrd, hTget i hig]
    rcases hzero with ⟨mz, hmz, hz⟩ | hA | hB
    · left
      show vdiv (andNum (m0 :: rest) i)
        (trapz (andCurve (m0 :: rest) grid.length) grid) = V.bad
      have hmzlen : i < (col mz 1).length := by
        rw [col_length]
        have := (hgood mz hmz).2
        rw [← col_length mz 0, this]
        exact hig
      have hnz : (normP mz).getD i (V.fin 1) = V.bad := by
        rw [normP, getD_map _ _ i hmzlen (V.fin 1) V.bad, hz, vdiv_zero_right]
      have : andNum (m0 :: rest) i = V.bad := by
        apply foldr_vmul_eq_bad
        rw [← hnz]
        exact List.mem_map.mpr ⟨mz, hmz, rfl⟩
      rw [this, vdiv_bad_left]
    · left
      show vdiv (andNum (m0 :: rest) i)
        (trapz (andCurve (m0 :: rest) grid.length) grid) = V.bad
      rw [hA, vdiv_zero_right]
    · right
      show vdiv (orNum (m0 :: rest) i)
        (trapz (orCurve (m0 :: rest) grid.length) grid) = V.bad
      rw [hB, vdiv_zero_right]

/-- Witness for C8 at one concrete file whose power integrates to zero. -/
theorem claim8_witness :
    (([[[V.fin 1, V.fin 1], [V.fin 2, V.fin (-1)]]] : List (List (List V))) ≠ [] ∧
     (∀ m ∈ ([[[V.fin 1, V.fin 1], [V.fin 2, V.fin (-1)]]] : List (List (List V))),
       (2 ≤ m.length ∧ ∀ r ∈ m, 2 ≤ r.length) ∧ col m 0 = [V.fin 1, V.fin 2]) ∧
     trapz (col [[V.fin 1, V.fin 1], [V.fin 2, V.fin (-1)]] 1)
       (col [[V.fin 1, V.fin 1], [V.fin 2, V.fin (-1)]] 0) = V.fin 0) ∧
    ∃ T, calcStacked (([[[V.fin 1, V.fin 1], [V.fin 2, V.fin (-1)]]]).map okFile) =
        (Except.ok T, []) ∧ 0 < T.length ∧
      ∀ r ∈ T, r.2.1 = V.bad ∨ r.2.2 = V.bad := by
  have hz : trapz (col [[V.fin 1, V.fin 1], [V.fin 2, V.fin (-1)]] 1)
      (col [[V.fin 1, V.fin 1], [V.fin 2, V.fin (-1)]] 0) = V.fin 0 := by
    norm_num [col, trapz, vadd, vsub, vmul, vdiv]
  exact ⟨⟨by decide, by decide, hz⟩,
    claim8_zero_integral_silent _ [V.fin 1, V.fin 2] (by decide) (by decide)
      (Or.inl ⟨_, by simp, hz⟩)⟩

/-- C9: at every point of the run the accumulator sequences satisfy
`len(frecs) == len(stacked_and) == len(stacked_or)`, and whenever the
accumulators are established the final table has one row per grid index with
columns in the fixed order (frequency, AND, OR). -/
theorem claim9_invariant_and_table (files : List RawFile) :
    accLenInv ((files.foldl step state0).acc) ∧
    ∀ fr sa so, (files.foldl step state0).acc = some (fr, sa, so) →
      ∃ T, (calcStacked files).fst = Except.ok T ∧ T.length = fr.length ∧
        ∀ i, i < fr.length →
          T.getD i (V.bad, V.bad, V.bad) =
            (fr.getD i V.bad,
             vdiv (sa.getD i V.bad) (trapz sa fr),
             vdiv (so.getD i V.bad) (trapz so fr)) := by
  have hinv := run_inv files
  constructor
  · cases hacc : (files.foldl step state0).acc with
    | none => exact trivial
    | some a =>
      obtain ⟨fr, sa, so⟩ := a
      rw [hacc] at hinv
      exact ⟨hinv.1, hinv.2.1⟩
  · intro fr sa so hacc
    rw [hacc] at hinv
    obtain ⟨T, hT, hTlen, hTget⟩ := finalize_some fr sa so hinv.1 hinv.2.1
    refine ⟨T, ?_, hTlen, hTget⟩
    simp only [calcStacked]
    rw [hacc, hT]

/-- Witness for C9 at a single two-row file. -/
theorem claim9_witness :
    accLenInv (([okFile [[V.fin 0, V.fin 1], [V.fin 1, V.fin 1]]].foldl step state0).acc) ∧
    (([okFile [[V.fin 0, V.fin 1], [V.fin 1, V.fin 1]]].foldl step state0).acc =
      some ([V.fin 0, V.fin 1], [V.fin 1, V.fin 1], [V.fin 1, V.fin 1])) ∧
    ∃ T, (calcStacked [okFile [[V.fin 0, V.fin 1], [V.fin 1, V.fin 1]]]).fst =
        Except.ok T ∧
      T.length = ([V.fin 0, V.fin 1] : List V).length ∧
      ∀ i, i < ([V.fin 0, V.fin 1] : List V).length →
        T.getD i (V.bad, V.bad, V.bad) =
          (([V.fin 0, V.fin 1] : List V).getD i V.bad,
           vdiv (([V.fin 1, V.fin 1] : List V).getD i V.bad)
             (trapz [V.fin 1, V.fin 1] [V.fin 0, V.fin 1]),
           vdiv (([V.fin 1, V.fin 1] : List V).getD i V.bad)
             (trapz [V.fin 1, V.fin 1] [V.fin 0, V.fin 1])) := by
  have h := claim9_invariant_and_table [okFile [[V.fin 0, V.fin 1], [V.fin 1, V.fin 1]]]
  have hacc : ([okFile [[V.fin 0, V.fin 1], [V.fin 1, V.fin 1]]].foldl step state0).acc =
      some ([V.fin 0, V.fin 1], [V.fin 1, V.fin 1], [V.fin 1, V.fin 1]) := by
    norm_num [state0, step, loadNorm, okFile, normP, col, trapz, vadd, vsub, vmul, vdiv]
  exact ⟨h.1, hacc, h.2 _ _ _ hacc⟩

/-- C10: per-file processing is atomic on every reachable state: if handling
a file changes the error log at all (i.e. some step of its processing raised),
then the accumulators are exactly what they were before the file was
attempted and the file was appended to `error_files` with a diagnostic; there
is no partial update of `stacked_and` without `stacked_or`. -/
theorem claim10_atomic (files : List RawFile) (f : RawFile) (st : CalcState)
    (hst : st = files.foldl step state0)
    (hfail : (step st f).error_files ≠ st.error_files) :
    (step st f).acc = st.acc ∧
    ∃ e, (step st f).error_files = st.error_files ++ [(f.name, e)] := by
  have hinv : accInvFull st.acc := by rw [hst]; exact run_inv files
  cases hl : loadNorm f with
  | error e =>
    have hstep : step st f =
        { st with error_files := st.error_files ++ [(f.name, pyStr e)] } := by
      simp [step, hl]
    rw [hstep]
    exact ⟨rfl, pyStr e, rfl⟩
  | ok v =>
    obtain ⟨fr, pw⟩ := v
    cases hacc : st.acc with
    | none =>
      have hstep : step st f = { st with acc := some (fr, pw, pw) } := by
        simp [step, hl, hacc]
      rw [hstep] at hfail
      exact absurd rfl hfail
    | some a =>
      obtain ⟨frecs, sand, sor⟩ := a
      rw [hacc] at hinv
      obtain ⟨hsa, hso, -⟩ := hinv
      by_cases h1 : pw.length = sand.length
      · have h2 : pw.length = sor.length := by rw [h1, hsa, hso]
        have h12 : sand.length = sor.length := by rw [← h1]; exact h2
        have hstep : step st f = { st with acc := some (frecs, List.zipWith vmul sand pw, List.zipWith vadd sor pw) } := by
          simp [step, hl, hacc, h1, h2, h12]
        rw [hstep] at hfail
        exact absurd rfl hfail
      · have hstep : step st f = { st with error_files := st.error_files ++ [(f.name, pyStr PyErr.valueError)] } := by
          simp [step, hl, hacc, h1]
        rw [hstep]
        exact ⟨hacc, pyStr PyErr.valueError, rfl⟩

/-- Witness for C10: a parse failure on the empty-run state. -/
theorem claim10_witness :
    state0 = ([] : List RawFile).foldl step state0 ∧
    (step state0 (RawFile.mk "broken.dat" (Except.error "oops"))).error_files ≠
      state0.error_files ∧
    (step state0 (RawFile.mk "broken.dat" (Except.error "oops"))).acc = state0.acc ∧
    ∃ e, (step state0 (RawFile.mk "broken.dat" (Except.error "oops"))).error_files =
      state0.error_files ++ [("broken.dat", e)] := by
  have h := claim10_atomic [] (RawFile.mk "broken.dat" (Except.error "oops"))
    state0 rfl (by decide)
  exact ⟨rfl, by decide, h.1, h.2⟩

end StackedPG
